import Mathlib

/-!
Verification of the InkDrive quota, persistence, admin and chat-session
serialization logic, shallowly embedded from `src/app.py`, `src/models.py`
and `src/admin.py`.

Time is modelled as an `Int` count of seconds; `timedelta(days=30)` becomes
the constant `thirtyDays`.  Database errors are modelled by explicit failure
injection points (`Except` bodies, `SaveFail` flags) placed where the Python
code can raise, with `db.session.rollback()` restoring the pre-call state.
-/

/-! ## Python string helpers -/

/-- Whitespace characters recognised by Python's `str.split()`. -/
def pyIsSpace (c : Char) : Bool :=
  [' ', '\t', '\n', '\r', '\x0b', '\x0c'].contains c

/-- Word counter over a character list: state `inWord` records whether the
previous character was part of a word.  Counts the groups produced by
Python's `str.split()`. -/
def countWordsAux : List Char → Bool → Nat
  | [], _ => 0
  | c :: cs, inWord =>
    if pyIsSpace c then countWordsAux cs false
    else (if inWord then 0 else 1) + countWordsAux cs true

/-- `len(s.split())` from `save_article_to_db`: the number of maximal
whitespace-free groups in `s`. -/
def countWords (s : String) : Nat := countWordsAux s.toList false

/-- Python `str.lower()` (ASCII model). -/
def pyLower (s : String) : String := s.map Char.toLower

/-- Python `str.strip()` (whitespace model). -/
def pyStrip (s : String) : String := s.trim

/-- `email.lower().strip()` as used by `is_superadmin` in `src/admin.py`. -/
def normEmail (s : String) : String := pyStrip (pyLower s)

/-! ## User state and the monthly quota tracker (`src/app.py` 1146-1180) -/

/-- The nullable usage-tracking columns of the `users` table that the quota
tracker and `save_article_to_db` read and write. -/
structure UserState where
  wordsGeneratedThisMonth : Option Nat
  downloadsThisMonth : Option Nat
  lastQuotaReset : Option Int
  articlesGenerated : Option Nat
deriving DecidableEq, Repr

/-- `MONTHLY_WORD_LIMIT = 15000` (`src/app.py` line 85). -/
def MONTHLY_WORD_LIMIT : Nat := 15000

/-- `MONTHLY_DOWNLOAD_LIMIT = 10` (`src/app.py` line 86). -/
def MONTHLY_DOWNLOAD_LIMIT : Nat := 10

/-- `timedelta(days=30)` in seconds. -/
def thirtyDays : Int := 30 * 86400

/-- The reset guard
`user.last_quota_reset is None or (datetime.utcnow() - user.last_quota_reset) > timedelta(days=30)`. -/
def resetDue (last : Option Int) (now : Int) : Bool :=
  match last with
  | none => true
  | some t => decide (thirtyDays < now - t)

/-- The quota-check condition stated by the spec: `last_quota_reset` is null
or more than 30 days have elapsed since it. -/
def ResetCond (u : UserState) (now : Int) : Prop :=
  u.lastQuotaReset = none ∨ ∃ t, u.lastQuotaReset = some t ∧ thirtyDays < now - t

instance (u : UserState) (now : Int) : Decidable (ResetCond u now) := by
  unfold ResetCond; infer_instance

/-- The state written by the reset transition of both quota checks:
both counters zeroed and `last_quota_reset` set to now. -/
def resetCounters (u : UserState) (now : Int) : UserState :=
  { u with wordsGeneratedThisMonth := some 0
           downloadsThisMonth := some 0
           lastQuotaReset := some now }

/-- The one kind of error the quota checks can encounter: a database error
raised while reading user columns or committing. -/
inductive DbErr where
  | dbFailure
deriving DecidableEq, Repr

/-- The `try` body of `check_monthly_word_quota`.  `readFails` injects an
exception at the first read of the user's columns, `commitFails` at
`db.session.commit()` inside the reset branch. -/
def checkMonthlyWordQuotaBody (u : UserState) (now : Int) (readFails commitFails : Bool) :
    Except DbErr (Bool × UserState) :=
  if readFails then .error .dbFailure
  else if resetDue u.lastQuotaReset now then
    if commitFails then .error .dbFailure
    else .ok (true, resetCounters u now)
  else
    .ok (decide (u.wordsGeneratedThisMonth.getD 0 < MONTHLY_WORD_LIMIT), u)

/-- `check_monthly_word_quota` (`src/app.py` 1146-1162): the `except` clause
turns any raised error into `True` (fail-open), committed state unchanged. -/
def checkMonthlyWordQuota (u : UserState) (now : Int) (readFails commitFails : Bool) :
    Bool × UserState :=
  match checkMonthlyWordQuotaBody u now readFails commitFails with
  | .ok r => r
  | .error _ => (true, u)

/-- The `try` body of `check_monthly_download_quota`. -/
def checkMonthlyDownloadQuotaBody (u : UserState) (now : Int) (readFails commitFails : Bool) :
    Except DbErr (Bool × UserState) :=
  if readFails then .error .dbFailure
  else if resetDue u.lastQuotaReset now then
    if commitFails then .error .dbFailure
    else .ok (true, resetCounters u now)
  else
    .ok (decide (u.downloadsThisMonth.getD 0 < MONTHLY_DOWNLOAD_LIMIT), u)

/-- `check_monthly_download_quota` (`src/app.py` 1164-1180). -/
def checkMonthlyDownloadQuota (u : UserState) (now : Int) (readFails commitFails : Bool) :
    Bool × UserState :=
  match checkMonthlyDownloadQuotaBody u now readFails commitFails with
  | .ok r => r
  | .error _ => (true, u)

/-! ## Articles, chat sessions and the database state -/

/-- The columns of the `articles` table touched by `save_article_to_db`. -/
structure Article where
  id : Nat
  userId : Nat
  title : String
  contentHtml : String
  contentRaw : String
  topic : String
  isRefined : Bool
  wordCount : Nat
  updatedAt : Int
  chatSessionId : Option Nat
deriving DecidableEq, Repr

/-- The columns of the `chat_sessions` table relevant to ownership and the
serialized message log. -/
structure ChatSessionRow where
  id : Nat
  userId : Nat
  sessionId : String
  messages : Option String
deriving DecidableEq, Repr

/-- The committed database state seen by one request: the articles and chat
sessions tables plus the users table as an id-keyed association list. -/
structure DbState where
  articles : List Article
  chatSessions : List ChatSessionRow
  users : List (Nat × UserState)
deriving DecidableEq, Repr

/-- `User.query.get(user_id)`. -/
def findUser (users : List (Nat × UserState)) (uid : Nat) : Option UserState :=
  (users.find? (fun p => p.1 == uid)).map (fun p => p.2)

/-- Overwrite the row of user `uid` with `f` applied to it. -/
def updateUser (users : List (Nat × UserState)) (uid : Nat) (f : UserState → UserState) :
    List (Nat × UserState) :=
  users.map (fun p => if p.1 == uid then (p.1, f p.2) else p)

/-- Failure injection points for `save_article_to_db`: no failure, an
exception while querying, or an exception at `db.session.commit()`. -/
inductive SaveFail where
  | noFail
  | atQuery
  | atCommit
deriving DecidableEq, Repr

/-- `save_article_to_db` (`src/app.py` 1059-1111).  `newId` models the id the
database assigns to a freshly inserted article; on any raised exception the
`except` clause rolls the transaction back (committed state = `st`) and the
function returns `None`. -/
def saveArticleToDb (st : DbState) (now : Int) (userId : Nat)
    (topic contentHtml contentRaw : String) (isRefined : Bool)
    (articleId : Option Nat) (chatSessionId : Option Nat)
    (newId : Nat) (fail : SaveFail) : Option Nat × DbState :=
  if fail = .atQuery then (none, st)
  else
    let wordCount := countWords contentRaw
    match articleId with
    | some aid =>
      match st.articles.find? (fun a => a.id == aid && a.userId == userId) with
      | some _ =>
        let articles := st.articles.map (fun a =>
          if a.id == aid && a.userId == userId then
            { a with contentHtml := contentHtml
                     contentRaw := contentRaw
                     isRefined := isRefined
                     wordCount := wordCount
                     updatedAt := now }
          else a)
        if fail = .atCommit then (none, st)
        else (some aid, { st with articles := articles })
      | none => (none, st)
    | none =>
      let article : Article :=
        { id := newId
          userId := userId
          title := topic.take 200
          contentHtml := contentHtml
          contentRaw := contentRaw
          topic := topic
          isRefined := isRefined
          wordCount := wordCount
          updatedAt := now
          chatSessionId := chatSessionId }
      let st1 : DbState := { st with articles := st.articles ++ [article] }
      let st2 : DbState :=
        match findUser st1.users userId with
        | none => st1
        | some u =>
          let u1 := { u with articlesGenerated := some (u.articlesGenerated.getD 0 + 1) }
          let u2 :=
            if resetDue u1.lastQuotaReset now then
              { u1 with wordsGeneratedThisMonth := some wordCount
                        downloadsThisMonth := some 0
                        lastQuotaReset := some now }
            else
              { u1 with wordsGeneratedThisMonth :=
                          some (u1.wordsGeneratedThisMonth.getD 0 + wordCount) }
          { st1 with users := updateUser st1.users userId (fun _ => u2) }
      if fail = .atCommit then (none, st) else (some newId, st2)

/-- The persistence tail of the `refine_article` route (`src/app.py`
2113-2120) for an authenticated user with an `article_id`: increment the
user's monthly word counter by the whitespace word count of the refined
text, commit, then update the stored article via `save_article_to_db`. -/
def refineRouteUpdate (st : DbState) (now : Int) (userId : Nat)
    (refinedText finalHtml : String) (articleId : Nat) : DbState :=
  let wc := countWords refinedText
  let st1 : DbState :=
    { st with users := updateUser st.users userId (fun u =>
        { u with wordsGeneratedThisMonth := some (u.wordsGeneratedThisMonth.getD 0 + wc) }) }
  (saveArticleToDb st1 now userId "" finalHtml refinedText true (some articleId) none 0
    .noFail).2

/-- `profile_delete_account` (`src/app.py` 1476-1502), success path: delete
every article and chat session owned by the user, then the user row. -/
def profileDeleteAccount (st : DbState) (uid : Nat) : DbState :=
  { articles := st.articles.filter (fun a => !(a.userId == uid))
    chatSessions := st.chatSessions.filter (fun c => !(c.userId == uid))
    users := st.users.filter (fun p => !(p.1 == uid)) }

/-! ## Superadmin gate (`src/admin.py` 18-31) -/

/-- `is_superadmin`: authenticated and the lowercased, stripped email is in
the lowercased, stripped allow-list. -/
def is_superadmin (isAuthenticated : Bool) (email : String)
    (superadminEmails : List String) : Bool :=
  isAuthenticated && (superadminEmails.map normEmail).contains (normEmail email)

/-- A route's outcome: the handler body ran, or the request was aborted with
an HTTP status. -/
inductive RouteResult (α : Type) where
  | ok (a : α)
  | httpAbort (status : Nat)
deriving DecidableEq, Repr

/-- The `superadmin_required` decorator: `abort(404)` when `is_superadmin()`
is false, otherwise run the wrapped handler. -/
def superadmin_required {α : Type} (isAuthenticated : Bool) (email : String)
    (superadminEmails : List String) (handler : α) : RouteResult α :=
  if is_superadmin isAuthenticated email superadminEmails then .ok handler
  else .httpAbort 404

/-! ## `retry_db_operation` (`src/app.py` 105-124) -/

/-- What one invocation of the wrapped function does: return a value, raise a
connectivity error (`OperationalError`/`DatabaseError`), or raise any other
exception. -/
inductive DbOutcome (α : Type) where
  | ok (a : α)
  | dbErr
  | otherErr
deriving DecidableEq, Repr

/-- What the wrapper as a whole does: a returned value, a re-raised
connectivity error, an immediately propagated other exception, or the
`return None` reached only when the loop body never runs. -/
inductive RetryOutcome (α : Type) where
  | success (a : α)
  | raisedDb
  | raisedOther
  | fellThrough
deriving DecidableEq, Repr

/-- A run of the wrapper: its outcome, the `time.sleep` durations in order,
and how many times the wrapped function was called. -/
structure RetryTrace (α : Type) where
  outcome : RetryOutcome α
  sleeps : List Nat
  calls : Nat
deriving DecidableEq, Repr

/-- The `for attempt in range(max_retries)` loop, entered at index `attempt`
with `remaining` iterations left.  On a connectivity error with iterations
left it sleeps `delay * (2 ** attempt)` and continues; on the last iteration
it re-raises; any other exception propagates at once. -/
def retryGo {α : Type} (behav : Nat → DbOutcome α) (delay : Nat) :
    Nat → Nat → RetryTrace α
  | _, 0 => ⟨.fellThrough, [], 0⟩
  | attempt, remaining + 1 =>
    match behav attempt with
    | .ok a => ⟨.success a, [], 1⟩
    | .otherErr => ⟨.raisedOther, [], 1⟩
    | .dbErr =>
      if remaining = 0 then ⟨.raisedDb, [], 1⟩
      else
        let t := retryGo behav delay (attempt + 1) remaining
        ⟨t.outcome, delay * 2 ^ attempt :: t.sleeps, t.calls + 1⟩

/-- `retry_db_operation(max_retries, delay)` applied to a function whose
`attempt`-th call behaves as `behav attempt`. -/
def retry_db_operation {α : Type} (maxRetries delay : Nat)
    (behav : Nat → DbOutcome α) : RetryTrace α :=
  retryGo behav delay 0 maxRetries

/-! ## JSON model for `ChatSession.set_messages` / `get_messages`
(`src/models.py` 249-260)

The `json` standard-library calls are not part of this repository; they are
modelled here by an executable serializer and parser over a JSON value type
(numbers restricted to integers), with the serializer following
`json.dumps`'s default output: separators `", "` and `": "`, strings quoted
with `"` and `\` escaped and control characters emitted as `\u00XX`. -/

/-- JSON-serializable values (integral numbers). -/
inductive Json where
  | null
  | bool (b : Bool)
  | num (n : Int)
  | str (s : String)
  | arr (elems : List Json)
  | obj (fields : List (String × Json))

/-- The decimal digit character for `n < 10`. -/
def digitChar (n : Nat) : Char := Char.ofNat (48 + n)

/-- Decimal representation of a natural number, most significant digit
first. -/
def natToChars (n : Nat) : List Char :=
  if h : n < 10 then [digitChar n]
  else
    have : n / 10 < n := Nat.div_lt_self (by omega) (by omega)
    natToChars (n / 10) ++ [digitChar (n % 10)]

/-- Decimal representation of an integer. -/
def intToChars (n : Int) : List Char :=
  if n < 0 then '-' :: natToChars n.natAbs else natToChars n.toNat

/-- Lower-case hexadecimal digit character for `n < 16`. -/
def lowHexChar (n : Nat) : Char :=
  if n < 10 then Char.ofNat (48 + n) else Char.ofNat (87 + n)

/-- How `json.dumps` emits one character inside a string literal. -/
def encodeChar (c : Char) : List Char :=
  if c = '"' then ['\\', '"']
  else if c = '\\' then ['\\', '\\']
  else if c.toNat < 32 then
    '\\' :: 'u' :: '0' :: '0' :: lowHexChar (c.toNat / 16) :: [lowHexChar (c.toNat % 16)]
  else [c]

/-- String-literal body: every character encoded. -/
def encodeStr (cs : List Char) : List Char := (cs.map encodeChar).flatten

/-- The keyword `null` as characters. -/
def nullLit : List Char := ['n', 'u', 'l', 'l']

/-- The keyword `true` as characters. -/
def trueLit : List Char := ['t', 'r', 'u', 'e']

/-- The keyword `false` as characters. -/
def falseLit : List Char := ['f', 'a', 'l', 's', 'e']

mutual

/-- `json.dumps` (default separators) as a character list. -/
def emit : Json → List Char
  | .null => nullLit
  | .bool b => if b then trueLit else falseLit
  | .num n => intToChars n
  | .str s => '"' :: (encodeStr s.toList ++ ['"'])
  | .arr [] => ['[', ']']
  | .arr (x :: xs) => '[' :: (emit x ++ emitItems xs ++ [']'])
  | .obj [] => ['\x7b', '\x7d']
  | .obj ((k, v) :: fs) => '\x7b' :: (emitField k v ++ emitFields fs ++ ['\x7d'])

/-- The `", "`-separated tail of a non-empty array. -/
def emitItems : List Json → List Char
  | [] => []
  | x :: xs => [',', ' '] ++ emit x ++ emitItems xs

/-- One `"key": value` member. -/
def emitField (k : String) (v : Json) : List Char :=
  '"' :: (encodeStr k.toList ++ ['"', ':', ' ']) ++ emit v

/-- The `", "`-separated tail of a non-empty object. -/
def emitFields : List (String × Json) → List Char
  | [] => []
  | (k, v) :: fs => [',', ' '] ++ emitField k v ++ emitFields fs

end

/-- `json.dumps`. -/
def dumps (j : Json) : String := (emit j).asString

mutual

/-- Fuel needed by the parser on the output of `emit`. -/
def jfuel : Json → Nat
  | .arr xs => 1 + ifuel xs
  | .obj fs => 1 + ffuel fs
  | _ => 1

/-- Fuel needed by `parseItems` on an array tail. -/
def ifuel : List Json → Nat
  | [] => 1
  | x :: xs => 1 + jfuel x + ifuel xs

/-- Fuel needed by `parseFields` on an object tail. -/
def ffuel : List (String × Json) → Nat
  | [] => 1
  | f :: fs => 1 + jfuel f.2 + ffuel fs

end

/-- JSON insignificant whitespace. -/
def isWsChar (c : Char) : Bool := [' ', '\t', '\n', '\r'].contains c

/-- Drop leading insignificant whitespace. -/
def skipWs : List Char → List Char
  | [] => []
  | c :: cs => if isWsChar c then skipWs cs else c :: cs

/-- Consume an exact character sequence. -/
def expectChars : List Char → List Char → Option (List Char)
  | [], cs => some cs
  | _ :: _, [] => none
  | e :: es, c :: cs => if c = e then expectChars es cs else none

/-- Value of one hexadecimal digit. -/
def hexVal (c : Char) : Option Nat :=
  if 48 ≤ c.toNat ∧ c.toNat ≤ 57 then some (c.toNat - 48)
  else if 97 ≤ c.toNat ∧ c.toNat ≤ 102 then some (c.toNat - 87)
  else if 65 ≤ c.toNat ∧ c.toNat ≤ 70 then some (c.toNat - 55)
  else none

/-- Single-character JSON escapes. -/
def escChar (e : Char) : Option Char :=
  if e = '"' then some '"'
  else if e = '\\' then some '\\'
  else if e = '/' then some '/'
  else if e = 'b' then some '\x08'
  else if e = 'f' then some '\x0c'
  else if e = 'n' then some '\n'
  else if e = 'r' then some '\r'
  else if e = 't' then some '\t'
  else none

/-- Parse the body of a string literal (after the opening quote): returns
the decoded characters and the input after the closing quote. -/
def parseStringBody : List Char → Option (List Char × List Char)
  | [] => none
  | c :: cs =>
    if c = '"' then some ([], cs)
    else if c = '\\' then
      match cs with
      | [] => none
      | e :: cs2 =>
        if e = 'u' then
          match cs2 with
          | h1 :: h2 :: h3 :: h4 :: cs3 =>
            match hexVal h1, hexVal h2, hexVal h3, hexVal h4 with
            | some v1, some v2, some v3, some v4 =>
              (parseStringBody cs3).map (fun p =>
                (Char.ofNat (4096 * v1 + 256 * v2 + 16 * v3 + v4) :: p.1, p.2))
            | _, _, _, _ => none
          | _ => none
        else
          match escChar e with
          | some d => (parseStringBody cs2).map (fun p => (d :: p.1, p.2))
          | none => none
    else (parseStringBody cs).map (fun p => (c :: p.1, p.2))

/-- The longest digit head of the input, and the rest. -/
def takeDigits : List Char → List Char × List Char
  | [] => ([], [])
  | c :: cs =>
    if c.isDigit then
      let p := takeDigits cs
      (c :: p.1, p.2)
    else ([], c :: cs)

/-- Numeric value of a digit list, most significant first. -/
def charsToNat (ds : List Char) : Nat :=
  ds.foldl (fun acc c => acc * 10 + (c.toNat - 48)) 0

mutual

/-- Recursive-descent JSON value parser (fuel-indexed): returns the value
and the unconsumed input. -/
def parseValue : Nat → List Char → Option (Json × List Char)
  | 0, _ => none
  | fuel + 1, cs =>
    match skipWs cs with
    | [] => none
    | c :: rest =>
      if c = 'n' then (expectChars ['u', 'l', 'l'] rest).map (fun r => (.null, r))
      else if c = 't' then (expectChars ['r', 'u', 'e'] rest).map (fun r => (.bool true, r))
      else if c = 'f' then
        (expectChars ['a', 'l', 's', 'e'] rest).map (fun r => (.bool false, r))
      else if c = '"' then
        (parseStringBody rest).map (fun p => (.str p.1.asString, p.2))
      else if c = '[' then
        match skipWs rest with
        | [] => none
        | d :: r2 =>
          if d = ']' then some (.arr [], r2)
          else (parseItems fuel (d :: r2)).map (fun p => (.arr p.1, p.2))
      else if c = '\x7b' then
        match skipWs rest with
        | [] => none
        | d :: r2 =>
          if d = '\x7d' then some (.obj [], r2)
          else (parseFields fuel (d :: r2)).map (fun p => (.obj p.1, p.2))
      else if c = '-' then
        let p := takeDigits rest
        if p.1.isEmpty then none else some (.num (-(charsToNat p.1 : Int)), p.2)
      else if c.isDigit then
        let p := takeDigits (c :: rest)
        some (.num ((charsToNat p.1 : Int)), p.2)
      else none

/-- Parse the members of a non-empty array, up to and including `]`. -/
def parseItems : Nat → List Char → Option (List Json × List Char)
  | 0, _ => none
  | fuel + 1, cs =>
    match parseValue fuel cs with
    | none => none
    | some (j, r) =>
      match skipWs r with
      | [] => none
      | d :: r2 =>
        if d = ',' then (parseItems fuel (skipWs r2)).map (fun p => (j :: p.1, p.2))
        else if d = ']' then some ([j], r2)
        else none

/-- Parse the members of a non-empty object, up to and including the
closing brace. -/
def parseFields : Nat → List Char → Option (List (String × Json) × List Char)
  | 0, _ => none
  | fuel + 1, cs =>
    match cs with
    | [] => none
    | c :: rest =>
      if c = '"' then
        match parseStringBody rest with
        | none => none
        | some (k, r) =>
          match skipWs r with
          | [] => none
          | d :: r2 =>
            if d = ':' then
              match parseValue fuel (skipWs r2) with
              | none => none
              | some (v, r3) =>
                match skipWs r3 with
                | [] => none
                | e2 :: r4 =>
                  if e2 = ',' then
                    (parseFields fuel (skipWs r4)).map (fun p => ((k.asString, v) :: p.1, p.2))
                  else if e2 = '\x7d' then some ([(k.asString, v)], r4)
                  else none
            else none
      else none

end

/-- `json.loads`, restricted to the integral-number JSON fragment: parse one
value and require only whitespace to remain. -/
def loads (s : String) : Option Json :=
  match parseValue (2 * s.toList.length + 1) s.toList with
  | none => none
  | some (j, r) => if skipWs r = [] then some j else none

/-- `ChatSession.set_messages` (`src/models.py` 249-251): the stored column
value, `json.dumps(messages_list) if messages_list else None`. -/
def set_messages (messagesList : List Json) : Option String :=
  if messagesList.isEmpty then none else some (dumps (.arr messagesList))

/-- `ChatSession.get_messages` (`src/models.py` 253-260): `[]` when the
column is `NULL` or empty or fails to parse, the parsed value otherwise. -/
def get_messages (stored : Option String) : Json :=
  match stored with
  | none => .arr []
  | some s =>
    if s = "" then .arr []
    else
      match loads s with
      | some j => j
      | none => .arr []

/-! ## Helper lemmas -/

theorem resetDue_eq_true_iff (u : UserState) (now : Int) :
    resetDue u.lastQuotaReset now = true ↔ ResetCond u now := by
  cases h : u.lastQuotaReset with
  | none => simp [resetDue, ResetCond, h]
  | some t => simp [resetDue, ResetCond, h]

theorem findUser_updateUser (users : List (Nat × UserState)) (uid : Nat)
    (f : UserState → UserState) :
    findUser (updateUser users uid f) uid = (findUser users uid).map f := by
  induction users with
  | nil => rfl
  | cons p ps ih =>
    rcases p with ⟨k, v⟩
    by_cases hk : k = uid
    · subst hk
      simp [findUser, updateUser, List.find?]
    · simp only [findUser, updateUser, List.map_cons] at ih ⊢
      rw [if_neg (by simpa using hk)]
      rw [List.find?_cons_of_neg _ (by simpa using hk),
        List.find?_cons_of_neg _ (by simpa using hk)]
      exact ih

/-! ## Claims about the quota tracker -/

/-- Claim C1: each quota check zeroes both monthly counters and stamps
`last_quota_reset` with the current time exactly when `last_quota_reset` is
null or more than 30 days old, and leaves the user state untouched
otherwise; whenever the reset fires the check returns true regardless of the
counters' prior values. -/
theorem quota_checks_reset_exactly_when_due (u : UserState) (now : Int) :
    (ResetCond u now →
      checkMonthlyWordQuota u now false false = (true, resetCounters u now) ∧
      checkMonthlyDownloadQuota u now false false = (true, resetCounters u now)) ∧
    (¬ ResetCond u now →
      (checkMonthlyWordQuota u now false false).2 = u ∧
      (checkMonthlyDownloadQuota u now false false).2 = u) := by
  constructor
  · intro hc
    have hb : resetDue u.lastQuotaReset now = true := (resetDue_eq_true_iff u now).mpr hc
    constructor <;>
      simp [checkMonthlyWordQuota, checkMonthlyWordQuotaBody,
        checkMonthlyDownloadQuota, checkMonthlyDownloadQuotaBody, hb]
  · intro hc
    have hb : resetDue u.lastQuotaReset now = false := by
      cases hreset : resetDue u.lastQuotaReset now with
      | false => rfl
      | true => exact absurd ((resetDue_eq_true_iff u now).mp hreset) hc
    constructor <;>
      simp [checkMonthlyWordQuota, checkMonthlyWordQuotaBody,
        checkMonthlyDownloadQuota, checkMonthlyDownloadQuotaBody, hb]

/-- Witness for C1 at a concrete user with a null reset timestamp. -/
theorem quota_checks_reset_witness :
    checkMonthlyWordQuota ⟨some 7, some 3, none, none⟩ 5 false false =
      (true, resetCounters ⟨some 7, some 3, none, none⟩ 5) :=
  ((quota_checks_reset_exactly_when_due ⟨some 7, some 3, none, none⟩ 5).1 (Or.inl rfl)).1

/-- Claim C2: with an unexpired quota window, the word check passes exactly
when the word counter is strictly below 15000 and the download check passes
exactly when the download counter is strictly below 10. -/
theorem quota_checks_compare_counters_when_window_unexpired
    (u : UserState) (now t : Int)
    (hset : u.lastQuotaReset = some t) (hfresh : now - t ≤ thirtyDays) :
    ((checkMonthlyWordQuota u now false false).1 = true ↔
      u.wordsGeneratedThisMonth.getD 0 < MONTHLY_WORD_LIMIT) ∧
    ((checkMonthlyDownloadQuota u now false false).1 = true ↔
      u.downloadsThisMonth.getD 0 < MONTHLY_DOWNLOAD_LIMIT) := by
  have hb : resetDue u.lastQuotaReset now = false := by
    simp [resetDue, hset]
    omega
  constructor <;>
    simp [checkMonthlyWordQuota, checkMonthlyWordQuotaBody,
      checkMonthlyDownloadQuota, checkMonthlyDownloadQuotaBody, hb]

/-- Witness for C2: a user one word below the ceiling and at the download
ceiling, checked at the instant of the last reset. -/
theorem quota_checks_compare_witness :
    ((checkMonthlyWordQuota ⟨some 14999, some 10, some 0, none⟩ 0 false false).1 = true ↔
      (⟨some 14999, some 10, some 0, none⟩ : UserState).wordsGeneratedThisMonth.getD 0 <
        MONTHLY_WORD_LIMIT) ∧
    ((checkMonthlyDownloadQuota ⟨some 14999, some 10, some 0, none⟩ 0 false false).1 = true ↔
      (⟨some 14999, some 10, some 0, none⟩ : UserState).downloadsThisMonth.getD 0 <
        MONTHLY_DOWNLOAD_LIMIT) :=
  quota_checks_compare_counters_when_window_unexpired _ 0 0 rfl (by decide)

/-- Claim C3: if the body of either quota check raises a database error, the
check catches it and returns true (fail-open), never false. -/
theorem quota_checks_fail_open (u : UserState) (now : Int) (rf cf : Bool) (e : DbErr) :
    (checkMonthlyWordQuotaBody u now rf cf = .error e →
      (checkMonthlyWordQuota u now rf cf).1 = true) ∧
    (checkMonthlyDownloadQuotaBody u now rf cf = .error e →
      (checkMonthlyDownloadQuota u now rf cf).1 = true) := by
  constructor <;> intro h <;>
    simp [checkMonthlyWordQuota, checkMonthlyDownloadQuota, h]

/-- Witness for C3: an injected read failure makes the word-quota body raise
and the check still permits the operation. -/
theorem quota_checks_fail_open_witness :
    checkMonthlyWordQuotaBody ⟨some 99999, some 99, some 0, none⟩ 0 true false =
      .error .dbFailure ∧
    (checkMonthlyWordQuota ⟨some 99999, some 99, some 0, none⟩ 0 true false).1 = true :=
  ⟨rfl, (quota_checks_fail_open _ 0 true false .dbFailure).1 rfl⟩

/-! ## Claims about `save_article_to_db` -/

/-- Claim C4: any exception raised inside `save_article_to_db` rolls the
transaction back and the function returns `None`, leaving the committed
database state (articles and all user counters) unchanged. -/
theorem save_article_rolls_back_on_error (st : DbState) (now : Int) (userId : Nat)
    (topic contentHtml contentRaw : String) (isRefined : Bool)
    (articleId : Option Nat) (chatSessionId : Option Nat) (newId : Nat)
    (fail : SaveFail) (hfail : fail ≠ .noFail) :
    saveArticleToDb st now userId topic contentHtml contentRaw isRefined articleId
      chatSessionId newId fail = (none, st) := by
  cases fail with
  | noFail => exact absurd rfl hfail
  | atQuery => simp [saveArticleToDb]
  | atCommit =>
    cases articleId with
    | none => simp [saveArticleToDb]
    | some aid =>
      cases hfind : st.articles.find? (fun a => a.id == aid && a.userId == userId) with
      | none => simp [saveArticleToDb, hfind]
      | some a => simp [saveArticleToDb, hfind]

/-- Witness for C4 at a concrete one-article state with a commit failure. -/
theorem save_article_rolls_back_witness :
    saveArticleToDb
      ⟨[⟨1, 1, "t", "h", "r", "t", false, 2, 0, none⟩], [], [(1, ⟨some 2, some 0, some 0, some 1⟩)]⟩
      5 1 "topic" "<p>x</p>" "x y z" false (some 1) none 2 .atCommit =
    (none,
      ⟨[⟨1, 1, "t", "h", "r", "t", false, 2, 0, none⟩], [], [(1, ⟨some 2, some 0, some 0, some 1⟩)]⟩) :=
  save_article_rolls_back_on_error _ 5 1 "topic" "<p>x</p>" "x y z" false (some 1) none 2
    .atCommit (by decide)

/-- Claim C5: on a successful generation (new article, unexpired quota
window) the stored word count is the naive whitespace word count of the raw
text and the user's monthly word counter grows by exactly that amount; on a
refinement of an existing article the content is overwritten, the word count
recomputed from the new raw text, `updated_at` bumped, and the counter grows
by the refined text's word count. -/
theorem generation_and_refinement_word_accounting
    (st : DbState) (now : Int) (uid : Nat) (topic html raw refined rhtml : String)
    (csid : Option Nat) (newId aid : Nat) (u : UserState) (a0 : Article)
    (hu : findUser st.users uid = some u)
    (hfresh : resetDue u.lastQuotaReset now = false)
    (hfind : st.articles.find? (fun a => a.id == aid && a.userId == uid) = some a0) :
    ((saveArticleToDb st now uid topic html raw false none csid newId .noFail).1 =
        some newId ∧
      (∃ a : Article,
        (saveArticleToDb st now uid topic html raw false none csid newId .noFail).2.articles =
          st.articles ++ [a] ∧
        a.wordCount = countWords raw ∧ a.contentRaw = raw ∧ a.userId = uid) ∧
      (findUser
          (saveArticleToDb st now uid topic html raw false none csid newId .noFail).2.users
          uid).map (fun v => v.wordsGeneratedThisMonth) =
        some (some (u.wordsGeneratedThisMonth.getD 0 + countWords raw))) ∧
    ((findUser (refineRouteUpdate st now uid refined rhtml aid).users uid).map
        (fun v => v.wordsGeneratedThisMonth) =
      some (some (u.wordsGeneratedThisMonth.getD 0 + countWords refined)) ∧
      ∀ a ∈ (refineRouteUpdate st now uid refined rhtml aid).articles,
        a.id = aid → a.userId = uid →
        a.contentRaw = refined ∧ a.contentHtml = rhtml ∧
        a.wordCount = countWords refined ∧ a.updatedAt = now ∧ a.isRefined = true) := by
  constructor
  · simp only [saveArticleToDb]
    rw [if_neg (by decide)]
    simp only [hu, hfresh]
    rw [if_neg (by decide)]
    refine ⟨rfl, ⟨_, rfl, rfl, rfl, rfl⟩, ?_⟩
    rw [findUser_updateUser, hu]
    simp
  · unfold refineRouteUpdate
    simp only [saveArticleToDb]
    rw [if_neg (by decide)]
    simp only [hfind]
    rw [if_neg (by decide)]
    constructor
    · rw [findUser_updateUser, hu]
      simp
    · intro a ha hid huid
      simp only [List.mem_map] at ha
      obtain ⟨b, hb, rfl⟩ := ha
      by_cases hcond : (b.id == aid && b.userId == uid) = true
      · rw [if_pos hcond]
        exact ⟨rfl, rfl, rfl, rfl, rfl⟩
      · rw [if_neg hcond] at hid huid ⊢
        exact absurd (by simp [hid, huid]) hcond

/-- Witness for C5 at a one-user, one-article state. -/
theorem generation_and_refinement_witness :
    (saveArticleToDb ⟨[⟨1, 1, "t", "h", "r", "t", false, 1, 0, none⟩], [],
        [(1, ⟨some 5, some 0, some 0, some 1⟩)]⟩ 9 1 "top" "<p>a b</p>" "a b" false none none
        2 .noFail).1 = some 2 ∧
    (findUser (refineRouteUpdate ⟨[⟨1, 1, "t", "h", "r", "t", false, 1, 0, none⟩], [],
        [(1, ⟨some 5, some 0, some 0, some 1⟩)]⟩ 9 1 "a b c" "<p>a b c</p>" 1).users 1).map
      (fun v => v.wordsGeneratedThisMonth) = some (some (5 + countWords "a b c")) := by
  have h := generation_and_refinement_word_accounting
    ⟨[⟨1, 1, "t", "h", "r", "t", false, 1, 0, none⟩], [],
      [(1, ⟨some 5, some 0, some 0, some 1⟩)]⟩ 9 1 "top" "<p>a b</p>" "a b" "a b c"
    "<p>a b c</p>" none 2 1 ⟨some 5, some 0, some 0, some 1⟩
    ⟨1, 1, "t", "h", "r", "t", false, 1, 0, none⟩ rfl (by decide) (by decide)
  exact ⟨h.1.1, h.2.1⟩

/-! ## Claim about account deletion -/

/-- Claim C7: after the delete-account operation no article, chat session or
user row with the deleted user's id remains. -/
theorem delete_account_removes_all_owned_rows (st : DbState) (uid : Nat) :
    ((profileDeleteAccount st uid).articles.all (fun a => !(a.userId == uid))) = true ∧
    ((profileDeleteAccount st uid).chatSessions.all (fun c => !(c.userId == uid))) = true ∧
    ((profileDeleteAccount st uid).users.all (fun p => !(p.1 == uid))) = true := by
  refine ⟨?_, ?_, ?_⟩ <;>
    · rw [List.all_eq_true]
      intro x hx
      exact (List.mem_filter.mp hx).2

/-! ## Claim about the superadmin gate -/

/-- Claim C8: `is_superadmin` holds exactly when the user is authenticated
and the lowercased, stripped email equals some allow-list entry lowercased
and stripped; a `superadmin_required` route answers 404 when it does not. -/
theorem superadmin_allowlist_and_404 {α : Type} (isAuth : Bool) (email : String)
    (allowList : List String) (handler : α) :
    (is_superadmin isAuth email allowList = true ↔
      isAuth = true ∧ ∃ e ∈ allowList, normEmail e = normEmail email) ∧
    (is_superadmin isAuth email allowList = false →
      superadmin_required isAuth email allowList handler = .httpAbort 404) := by
  constructor
  · simp [is_superadmin, List.mem_map]
  · intro h
    simp [superadmin_required, h]

/-- Witness for C8: an unauthenticated request to a guarded route draws a
404. -/
theorem superadmin_witness :
    superadmin_required false "x@y.z" ["admin@inkdrive.com"] (0 : Nat) = .httpAbort 404 :=
  (superadmin_allowlist_and_404 false "x@y.z" ["admin@inkdrive.com"] (0 : Nat)).2 rfl

/-! ## Claim about `retry_db_operation` -/

theorem retryGo_calls_le {α : Type} (behav : Nat → DbOutcome α) (delay : Nat) :
    ∀ remaining attempt, (retryGo behav delay attempt remaining).calls ≤ remaining := by
  intro remaining
  induction remaining with
  | zero => intro attempt; simp [retryGo]
  | succ n ih =>
    intro attempt
    simp only [retryGo]
    cases behav attempt with
    | ok a => simp
    | otherErr => simp
    | dbErr =>
      by_cases hn : n = 0
      · simp [hn]
      · simp only [hn, if_neg hn, ite_false]
        exact Nat.succ_le_succ (ih (attempt + 1))

theorem retryGo_all_dbErr {α : Type} (behav : Nat → DbOutcome α) (delay : Nat) :
    ∀ remaining attempt, 1 ≤ remaining →
    (∀ i, i < remaining → behav (attempt + i) = .dbErr) →
    retryGo behav delay attempt remaining =
      ⟨.raisedDb, (List.range (remaining - 1)).map (fun i => delay * 2 ^ (attempt + i)),
        remaining⟩ := by
  intro remaining
  induction remaining with
  | zero => omega
  | succ n ih =>
    intro attempt _ hall
    have h0 : behav attempt = .dbErr := by simpa using hall 0 (by omega)
    simp only [retryGo, h0]
    cases n with
    | zero => simp
    | succ m =>
      have hrec := ih (attempt + 1) (by omega) (fun i hi => by
        have := hall (i + 1) (by omega)
        simpa [Nat.add_assoc, Nat.add_comm, Nat.add_left_comm] using this)
      rw [if_neg (by omega)]
      simp only [hrec]
      have hf : ((fun i => delay * 2 ^ (attempt + i)) ∘ Nat.succ) =
          fun i => delay * 2 ^ (attempt + 1 + i) := by
        funext i
        have h1 : attempt + Nat.succ i = attempt + 1 + i := by omega
        simp [Function.comp, h1]
      have hs : (List.range (m + 1 + 1 - 1)).map (fun i => delay * 2 ^ (attempt + i)) =
          delay * 2 ^ attempt ::
            (List.range (m + 1 - 1)).map (fun i => delay * 2 ^ (attempt + 1 + i)) := by
        have hm : m + 1 + 1 - 1 = m + 1 := rfl
        rw [hm, List.range_succ_eq_map, List.map_cons, List.map_map, hf]
        simp
      rw [hs]

/-- Claim C9: a wrapped call is attempted at most `max_retries` times; if
every attempt raises a connectivity error the wrapper sleeps
`delay * 2 ^ attempt` between attempts and re-raises after the last one; a
first attempt that raises any other exception propagates it immediately with
no retry and no sleep; a successful first attempt returns its result
unchanged. -/
theorem retry_db_operation_spec {α : Type} (behav : Nat → DbOutcome α)
    (maxRetries delay : Nat) :
    (retry_db_operation maxRetries delay behav).calls ≤ maxRetries ∧
    ((∀ i, i < maxRetries → behav i = .dbErr) → 1 ≤ maxRetries →
      retry_db_operation maxRetries delay behav =
        ⟨.raisedDb, (List.range (maxRetries - 1)).map (fun i => delay * 2 ^ i),
          maxRetries⟩) ∧
    (∀ a, behav 0 = .ok a → 1 ≤ maxRetries →
      retry_db_operation maxRetries delay behav = ⟨.success a, [], 1⟩) ∧
    (behav 0 = .otherErr → 1 ≤ maxRetries →
      retry_db_operation maxRetries delay behav = ⟨.raisedOther, [], 1⟩) := by
  refine ⟨retryGo_calls_le behav delay maxRetries 0, ?_, ?_, ?_⟩
  · intro hall hpos
    have h := retryGo_all_dbErr behav delay maxRetries 0 hpos (fun i hi => by
      simpa using hall i hi)
    simpa using h
  · intro a ha hpos
    obtain ⟨m, rfl⟩ : ∃ m, maxRetries = m + 1 := ⟨maxRetries - 1, by omega⟩
    simp [retry_db_operation, retryGo, ha]
  · intro ha hpos
    obtain ⟨m, rfl⟩ : ∃ m, maxRetries = m + 1 := ⟨maxRetries - 1, by omega⟩
    simp [retry_db_operation, retryGo, ha]

/-- Witness for C9: two attempts that both raise a connectivity error give
one backoff sleep, two calls and a re-raised error. -/
theorem retry_db_operation_witness :
    retry_db_operation 2 1 (fun _ => (DbOutcome.dbErr : DbOutcome Nat)) =
      ⟨.raisedDb, (List.range 1).map (fun i => 1 * 2 ^ i), 2⟩ :=
  (retry_db_operation_spec (fun _ => (DbOutcome.dbErr : DbOutcome Nat)) 2 1).2.1
    (fun _ _ => rfl) (by omega)

/-! ## JSON round-trip: character-level lemmas -/

theorem isDigit_toNat_bounds (c : Char) (h : c.isDigit = true) :
    48 ≤ c.toNat ∧ c.toNat ≤ 57 := by
  simp only [Char.isDigit, Bool.and_eq_true, decide_eq_true_eq, ge_iff_le] at h
  obtain ⟨h1, h2⟩ := h
  exact ⟨UInt32.le_toNat_of_le (by decide) h1, UInt32.toNat_le_of_le (by decide) h2⟩

theorem isDigit_ne_rbracket (c : Char) (h : c.isDigit = true) : c ≠ ']' := by
  intro hc; subst hc; simp at h

theorem isDigit_ne_rbrace (c : Char) (h : c.isDigit = true) : c ≠ '\x7d' := by
  intro hc; subst hc; simp at h

theorem isDigit_not_ws (c : Char) (h : c.isDigit = true) : isWsChar c = false := by
  have hb := isDigit_toNat_bounds c h
  cases hw : isWsChar c with
  | false => rfl
  | true =>
    simp [isWsChar] at hw
    rcases hw with hc | hc | hc | hc <;> subst hc <;> exact absurd hb (by decide)

theorem skipWs_cons_of_not_ws {c : Char} (h : isWsChar c = false) (cs : List Char) :
    skipWs (c :: cs) = c :: cs := by
  simp [skipWs, h]

theorem skipWs_cons_space (cs : List Char) : skipWs (' ' :: cs) = skipWs cs := by
  simp [skipWs, isWsChar]

theorem expectChars_self (pre rest : List Char) : expectChars pre (pre ++ rest) = some rest := by
  induction pre with
  | nil => rfl
  | cons c cs ih => simp [expectChars, ih]

theorem digitChar_isDigit (n : Nat) (h : n < 10) : (digitChar n).isDigit = true := by
  interval_cases n <;> decide

theorem digitChar_toNat (n : Nat) (h : n < 10) : (digitChar n).toNat = 48 + n := by
  interval_cases n <;> decide

theorem natToChars_ne_nil (n : Nat) : natToChars n ≠ [] := by
  rw [natToChars]
  split <;> simp

theorem natToChars_digits (n : Nat) : ∀ c ∈ natToChars n, c.isDigit = true := by
  induction n using Nat.strong_induction_on with
  | _ n ih =>
    rw [natToChars]
    split
    · next h =>
      intro c hc
      simp only [List.mem_singleton] at hc
      subst hc
      exact digitChar_isDigit n h
    · next h =>
      intro c hc
      rw [List.mem_append] at hc
      rcases hc with hc | hc
      · exact ih (n / 10) (Nat.div_lt_self (by omega) (by omega)) c hc
      · simp only [List.mem_singleton] at hc
        subst hc
        exact digitChar_isDigit _ (Nat.mod_lt _ (by omega))

theorem charsToNat_append_singleton (ds : List Char) (c : Char) :
    charsToNat (ds ++ [c]) = 10 * charsToNat ds + (c.toNat - 48) := by
  simp [charsToNat, List.foldl_append]
  omega

theorem charsToNat_natToChars (n : Nat) : charsToNat (natToChars n) = n := by
  induction n using Nat.strong_induction_on with
  | _ n ih =>
    rw [natToChars]
    split
    · next h =>
      simp [charsToNat, digitChar_toNat n h]
    · next h =>
      rw [charsToNat_append_singleton,
        ih (n / 10) (Nat.div_lt_self (by omega) (by omega)),
        digitChar_toNat _ (Nat.mod_lt _ (by omega))]
      omega

theorem takeDigits_append (ds rest : List Char)
    (hds : ∀ c ∈ ds, c.isDigit = true)
    (hrest : ∀ d, rest.head? = some d → d.isDigit = false) :
    takeDigits (ds ++ rest) = (ds, rest) := by
  induction ds with
  | nil =>
    cases rest with
    | nil => rfl
    | cons d r => simp [takeDigits, hrest d rfl]
  | cons c cs ih =>
    have hc : c.isDigit = true := hds c (by simp)
    simp [takeDigits, hc, ih (fun x hx => hds x (by simp [hx]))]

theorem hexVal_zero : hexVal '0' = some 0 := by decide

theorem hexVal_lowHexChar (m : Nat) (h : m < 16) : hexVal (lowHexChar m) = some m := by
  interval_cases m <;> decide

theorem parseStringBody_encodeStr (s rest : List Char) :
    parseStringBody (encodeStr s ++ '"' :: rest) = some (s, rest) := by
  induction s with
  | nil =>
    have h0 : encodeStr [] ++ '"' :: rest = '"' :: rest := by simp [encodeStr]
    rw [h0, parseStringBody.eq_def]
    simp
  | cons c cs ih =>
    have hstep : encodeStr (c :: cs) ++ '"' :: rest =
        encodeChar c ++ (encodeStr cs ++ '"' :: rest) := by simp [encodeStr]
    rw [hstep]
    by_cases h1 : c = '"'
    · subst h1
      have he : encodeChar '"' = ['\\', '"'] := rfl
      rw [he]
      rw [show (['\\', '"'] : List Char) ++ (encodeStr cs ++ '"' :: rest) =
        '\\' :: '"' :: (encodeStr cs ++ '"' :: rest) from rfl]
      rw [parseStringBody.eq_def]
      simp +decide [escChar, ih]
    · by_cases h2 : c = '\\'
      · subst h2
        have he : encodeChar '\\' = ['\\', '\\'] := rfl
        rw [he]
        rw [show (['\\', '\\'] : List Char) ++ (encodeStr cs ++ '"' :: rest) =
          '\\' :: '\\' :: (encodeStr cs ++ '"' :: rest) from rfl]
        rw [parseStringBody.eq_def]
        simp +decide [escChar, ih]
      · by_cases h3 : c.toNat < 32
        · have hdiv : c.toNat / 16 < 16 := by omega
          have hmod : c.toNat % 16 < 16 := Nat.mod_lt _ (by omega)
          have harith : 16 * (c.toNat / 16) + c.toNat % 16 = c.toNat := by omega
          have he : encodeChar c = ['\\', 'u', '0', '0',
              lowHexChar (c.toNat / 16), lowHexChar (c.toNat % 16)] := by
            simp [encodeChar, h1, h2, h3]
          rw [he]
          rw [show (['\\', 'u', '0', '0', lowHexChar (c.toNat / 16),
              lowHexChar (c.toNat % 16)] : List Char) ++ (encodeStr cs ++ '"' :: rest) =
            '\\' :: 'u' :: '0' :: '0' :: lowHexChar (c.toNat / 16) ::
              lowHexChar (c.toNat % 16) :: (encodeStr cs ++ '"' :: rest) from rfl]
          rw [parseStringBody.eq_def]
          simp +decide [hexVal_zero, hexVal_lowHexChar _ hdiv,
            hexVal_lowHexChar _ hmod, ih, harith, Char.ofNat_toNat]
        · have he : encodeChar c = [c] := by simp [encodeChar, h1, h2, h3]
          rw [he]
          rw [show ([c] : List Char) ++ (encodeStr cs ++ '"' :: rest) =
            c :: (encodeStr cs ++ '"' :: rest) from rfl]
          rw [parseStringBody.eq_def]
          simp [h1, h2, ih]

theorem isDigit_ne_specials (c : Char) (h : c.isDigit = true) :
    c ≠ '-' ∧ c ≠ '"' ∧ c ≠ '[' ∧ c ≠ '\x7b' ∧ c ≠ 'n' ∧ c ≠ 't' ∧ c ≠ 'f' := by
  have k : ∀ x : Char, x.isDigit = false → c ≠ x := by
    intro x hx hc
    subst hc
    rw [h] at hx
    cases hx
  exact ⟨k '-' (by decide), k '"' (by decide), k '[' (by decide), k '\x7b' (by decide),
    k 'n' (by decide), k 't' (by decide), k 'f' (by decide)⟩

theorem jfuel_pos (j : Json) : 1 ≤ jfuel j := by
  cases j <;> simp [jfuel]

theorem ifuel_pos (xs : List Json) : 1 ≤ ifuel xs := by
  cases xs <;> simp [ifuel] <;> omega

theorem ffuel_pos (fs : List (String × Json)) : 1 ≤ ffuel fs := by
  cases fs with
  | nil => simp [ffuel]
  | cons f fs => rcases f with ⟨k, v⟩; simp [ffuel]; omega

theorem emit_head_spec (j : Json) :
    ∃ c cs, emit j = c :: cs ∧ isWsChar c = false ∧ c ≠ ']' ∧ c ≠ '\x7d' := by
  cases j with
  | null => exact ⟨'n', ['u', 'l', 'l'], by simp [emit, nullLit, trueLit, falseLit], rfl,
      by simp, by simp⟩
  | bool b =>
    cases b with
    | true => exact ⟨'t', ['r', 'u', 'e'], by simp [emit, nullLit, trueLit, falseLit],
        rfl, by simp, by simp⟩
    | false =>
      exact ⟨'f', ['a', 'l', 's', 'e'], by simp [emit, nullLit, trueLit, falseLit],
        rfl, by simp, by simp⟩
  | num m =>
    by_cases hm : m < 0
    · exact ⟨'-', natToChars m.natAbs, by simp [emit, nullLit, trueLit, falseLit, intToChars, hm], by decide,
        by decide, by decide⟩
    · obtain ⟨c, ds, hcd⟩ := List.exists_cons_of_ne_nil (natToChars_ne_nil m.toNat)
      have hdig : c.isDigit = true := natToChars_digits m.toNat c (by rw [hcd]; simp)
      exact ⟨c, ds, by simp [emit, nullLit, trueLit, falseLit, intToChars, hm, hcd], isDigit_not_ws c hdig,
        isDigit_ne_rbracket c hdig, isDigit_ne_rbrace c hdig⟩
  | str s =>
    exact ⟨'"', encodeStr s.toList ++ ['"'], by simp [emit, nullLit, trueLit, falseLit], by decide, by decide, by decide⟩
  | arr xs =>
    cases xs with
    | nil => exact ⟨'[', [']'], by simp [emit, nullLit, trueLit, falseLit], by decide, by decide, by decide⟩
    | cons x xs =>
      exact ⟨'[', emit x ++ emitItems xs ++ [']'], by simp [emit, nullLit, trueLit, falseLit], by decide, by decide,
        by decide⟩
  | obj fs =>
    cases fs with
    | nil => exact ⟨'\x7b', ['\x7d'], by simp [emit, nullLit, trueLit, falseLit], by decide, by decide, by decide⟩
    | cons f fs =>
      rcases f with ⟨k, v⟩
      exact ⟨'\x7b', emitField k v ++ emitFields fs ++ ['\x7d'], by simp [emit, nullLit, trueLit, falseLit], by decide,
        by decide, by decide⟩

theorem intToChars_ne_nil (m : Int) : intToChars m ≠ [] := by
  unfold intToChars
  split
  · simp
  · exact natToChars_ne_nil m.toNat

theorem emit_fuel_bound : ∀ n : Nat,
    (∀ j, jfuel j ≤ n → jfuel j ≤ 2 * (emit j).length) ∧
    (∀ xs : List Json, ifuel xs ≤ n → ifuel xs ≤ 2 * (emitItems xs).length + 2) ∧
    (∀ fs : List (String × Json), ffuel fs ≤ n →
      ffuel fs ≤ 2 * (emitFields fs).length + 2) := by
  intro n
  induction n with
  | zero =>
    exact ⟨fun j hj => absurd hj (by have := jfuel_pos j; omega),
      fun xs hxs => absurd hxs (by have := ifuel_pos xs; omega),
      fun fs hfs => absurd hfs (by have := ffuel_pos fs; omega)⟩
  | succ n ih =>
    obtain ⟨ihA, ihB, ihC⟩ := ih
    refine ⟨?_, ?_, ?_⟩
    · intro j hj
      cases j with
      | null => simp [jfuel, emit, nullLit, trueLit, falseLit]
      | bool b => cases b <;> simp [jfuel, emit, nullLit, trueLit, falseLit]
      | num m =>
        have h1 : 1 ≤ (emit (Json.num m)).length := by
          have hne : emit (Json.num m) ≠ [] := by
            simpa [emit, nullLit, trueLit, falseLit] using intToChars_ne_nil m
          have := List.length_pos.mpr hne
          omega
        simp only [jfuel]
        omega
      | str s => simp [jfuel, emit, nullLit, trueLit, falseLit]; omega
      | arr xs =>
        cases xs with
        | nil => simp [jfuel, ifuel, emit]
        | cons x xs =>
          have hx : jfuel x ≤ n := by
            have := ifuel_pos xs
            simp only [jfuel, ifuel] at hj
            omega
          have hxs : ifuel xs ≤ n := by
            have := jfuel_pos x
            simp only [jfuel, ifuel] at hj
            omega
          have hA := ihA x hx
          have hB := ihB xs hxs
          simp only [jfuel, ifuel, emit, List.length_cons, List.length_append,
            List.length_singleton]
          omega
      | obj fs =>
        cases fs with
        | nil => simp [jfuel, ffuel, emit]
        | cons f fs =>
          rcases f with ⟨k, v⟩
          have hv : jfuel v ≤ n := by
            have := ffuel_pos fs
            simp only [jfuel, ffuel] at hj
            omega
          have hfs : ffuel fs ≤ n := by
            have := jfuel_pos v
            simp only [jfuel, ffuel] at hj
            omega
          have hA := ihA v hv
          have hC := ihC fs hfs
          simp only [jfuel, ffuel, emit, emitField, List.length_cons, List.length_append,
            List.length_singleton]
          omega
    · intro xs hxs
      cases xs with
      | nil => simp [ifuel, emitItems]
      | cons x xs =>
        have hx : jfuel x ≤ n := by
          have := ifuel_pos xs
          simp only [ifuel] at hxs
          omega
        have hxs' : ifuel xs ≤ n := by
          have := jfuel_pos x
          simp only [ifuel] at hxs
          omega
        have hA := ihA x hx
        have hB := ihB xs hxs'
        simp only [ifuel, emitItems, List.length_cons, List.length_append]
        omega
    · intro fs hfs
      cases fs with
      | nil => simp [ffuel, emitFields]
      | cons f fs =>
        rcases f with ⟨k, v⟩
        have hv : jfuel v ≤ n := by
          have := ffuel_pos fs
          simp only [ffuel] at hfs
          omega
        have hfs' : ffuel fs ≤ n := by
          have := jfuel_pos v
          simp only [ffuel] at hfs
          omega
        have hA := ihA v hv
        have hC := ihC fs hfs'
        simp only [ffuel, emitFields, emitField, List.length_cons, List.length_append,
          List.length_singleton]
        omega

theorem jfuel_le_two_mul_emit_length (j : Json) : jfuel j ≤ 2 * (emit j).length :=
  (emit_fuel_bound (jfuel j)).1 j le_rfl

theorem asString_data (s : String) : s.data.asString = s := rfl

theorem parse_emit_mutual : ∀ fuel : Nat,
    (∀ j rest, jfuel j ≤ fuel →
      (∀ m d, j = Json.num m → rest.head? = some d → d.isDigit = false) →
      parseValue fuel (emit j ++ rest) = some (j, rest)) ∧
    (∀ x xs rest, 1 + jfuel x + ifuel xs ≤ fuel →
      parseItems fuel (emit x ++ (emitItems xs ++ ']' :: rest)) = some (x :: xs, rest)) ∧
    (∀ k v fs rest, 1 + jfuel v + ffuel fs ≤ fuel →
      parseFields fuel (emitField k v ++ (emitFields fs ++ '\x7d' :: rest)) =
        some ((k, v) :: fs, rest)) := by
  intro fuel
  induction fuel with
  | zero =>
    exact ⟨fun j rest hj _ => absurd hj (by have := jfuel_pos j; omega),
      fun x xs rest h => absurd h (by have := jfuel_pos x; have := ifuel_pos xs; omega),
      fun k v fs rest h => absurd h (by have := jfuel_pos v; have := ffuel_pos fs; omega)⟩
  | succ n ih =>
    obtain ⟨ihV, ihI, ihF⟩ := ih
    refine ⟨?_, ?_, ?_⟩
    · intro j rest hj hsafe
      cases j with
      | null =>
        rw [show emit Json.null ++ rest = 'n' :: (['u', 'l', 'l'] ++ rest) from by
          simp [emit, nullLit, trueLit, falseLit]]
        rw [parseValue.eq_def]
        simp +decide [skipWs_cons_of_not_ws (show isWsChar 'n' = false from by decide),
          show expectChars ['u', 'l', 'l'] ('u' :: 'l' :: 'l' :: rest) = some rest from
            expectChars_self ['u', 'l', 'l'] rest]
      | bool b =>
        cases b with
        | true =>
          rw [show emit (Json.bool true) ++ rest = 't' :: (['r', 'u', 'e'] ++ rest) from by
            simp [emit, nullLit, trueLit, falseLit]]
          rw [parseValue.eq_def]
          simp +decide [skipWs_cons_of_not_ws (show isWsChar 't' = false from by decide),
            show expectChars ['r', 'u', 'e'] ('r' :: 'u' :: 'e' :: rest) = some rest from
              expectChars_self ['r', 'u', 'e'] rest]
        | false =>
          rw [show emit (Json.bool false) ++ rest =
            'f' :: (['a', 'l', 's', 'e'] ++ rest) from by simp [emit, nullLit, trueLit, falseLit]]
          rw [parseValue.eq_def]
          simp +decide [skipWs_cons_of_not_ws (show isWsChar 'f' = false from by decide),
            show expectChars ['a', 'l', 's', 'e'] ('a' :: 'l' :: 's' :: 'e' :: rest) =
              some rest from expectChars_self ['a', 'l', 's', 'e'] rest]
      | str s =>
        rw [show emit (Json.str s) ++ rest =
          '"' :: (encodeStr s.toList ++ '"' :: rest) from by simp [emit, nullLit, trueLit, falseLit]]
        rw [parseValue.eq_def]
        simp +decide [skipWs_cons_of_not_ws (show isWsChar '"' = false from by decide),
          parseStringBody_encodeStr, asString_data]
      | num m =>
        have hsafe' : ∀ d, rest.head? = some d → d.isDigit = false := fun d hd =>
          hsafe m d rfl hd
        by_cases hm : m < 0
        · have htake := takeDigits_append (natToChars m.natAbs) rest
            (natToChars_digits m.natAbs) hsafe'
          have hds : (natToChars m.natAbs).isEmpty = false := by
            cases hcd : natToChars m.natAbs with
            | nil => exact absurd hcd (natToChars_ne_nil _)
            | cons c ds => simp
          rw [show emit (Json.num m) ++ rest = '-' :: (natToChars m.natAbs ++ rest) from by
            simp [emit, nullLit, trueLit, falseLit, intToChars, hm]]
          rw [parseValue.eq_def]
          simp +decide [skipWs_cons_of_not_ws (show isWsChar '-' = false from by decide),
            htake, hds, charsToNat_natToChars]
          rw [abs_of_neg hm, neg_neg]
        · obtain ⟨c, ds, hcd⟩ := List.exists_cons_of_ne_nil (natToChars_ne_nil m.toNat)
          have hdig : c.isDigit = true := natToChars_digits m.toNat c (by rw [hcd]; simp)
          obtain ⟨hn7, hn4, hn5, hn6, hn1, hn2, hn3⟩ := isDigit_ne_specials c hdig
          have htake : takeDigits (c :: (ds ++ rest)) = (c :: ds, rest) := by
            rw [show c :: (ds ++ rest) = (c :: ds) ++ rest from rfl, ← hcd]
            exact takeDigits_append _ _ (natToChars_digits m.toNat) hsafe'
          rw [show emit (Json.num m) ++ rest = c :: (ds ++ rest) from by
            simp [emit, nullLit, trueLit, falseLit, intToChars, hm, hcd]]
          rw [parseValue.eq_def]
          simp [skipWs_cons_of_not_ws (isDigit_not_ws c hdig), hn1, hn2, hn3, hn4, hn5,
            hn6, hn7, hdig, htake, show charsToNat (c :: ds) = m.toNat from by
              rw [← hcd, charsToNat_natToChars]]
          omega
      | arr xs =>
        cases xs with
        | nil =>
          rw [show emit (Json.arr []) ++ rest = '[' :: (']' :: rest) from by simp [emit, nullLit, trueLit, falseLit]]
          rw [parseValue.eq_def]
          simp +decide [skipWs_cons_of_not_ws (show isWsChar '[' = false from by decide),
            skipWs_cons_of_not_ws (show isWsChar ']' = false from by decide)]
        | cons x xs =>
          obtain ⟨c0, cs0, h0, hnw0, hnb0, hnbr0⟩ := emit_head_spec x
          have hfx : 1 + jfuel x + ifuel xs ≤ n := by
            simp only [jfuel, ifuel] at hj
            omega
          have hitems := ihI x xs rest hfx
          rw [show emit (Json.arr (x :: xs)) ++ rest =
            '[' :: (emit x ++ (emitItems xs ++ ']' :: rest)) from by simp [emit, nullLit, trueLit, falseLit]]
          rw [parseValue.eq_def]
          simp +decide [skipWs_cons_of_not_ws (show isWsChar '[' = false from by decide),
            h0, skipWs_cons_of_not_ws hnw0, hnb0]
          rw [h0] at hitems
          simpa using hitems
      | obj fs =>
        cases fs with
        | nil =>
          rw [show emit (Json.obj []) ++ rest = '\x7b' :: ('\x7d' :: rest) from by
            simp [emit, nullLit, trueLit, falseLit]]
          rw [parseValue.eq_def]
          simp +decide [
            skipWs_cons_of_not_ws (show isWsChar '\x7b' = false from by decide),
            skipWs_cons_of_not_ws (show isWsChar '\x7d' = false from by decide)]
        | cons f fs =>
          rcases f with ⟨k, v⟩
          have hfv : 1 + jfuel v + ffuel fs ≤ n := by
            simp only [jfuel, ffuel] at hj
            omega
          have hflds := ihF k v fs rest hfv
          rw [show emit (Json.obj ((k, v) :: fs)) ++ rest =
            '\x7b' :: (emitField k v ++ (emitFields fs ++ '\x7d' :: rest)) from by
            simp [emit, nullLit, trueLit, falseLit]]
          rw [parseValue.eq_def]
          rw [show emitField k v ++ (emitFields fs ++ '\x7d' :: rest) =
            '"' :: (encodeStr k.toList ++ ('"' :: ':' :: ' ' ::
              (emit v ++ (emitFields fs ++ '\x7d' :: rest)))) from by simp [emitField]]
            at hflds ⊢
          simp +decide [
            skipWs_cons_of_not_ws (show isWsChar '\x7b' = false from by decide),
            skipWs_cons_of_not_ws (show isWsChar '"' = false from by decide)]
          simpa using hflds
    · intro x xs rest hfuel
      have hxn : jfuel x ≤ n := by
        have := ifuel_pos xs
        omega
      have hsafe : ∀ m d, x = Json.num m →
          (emitItems xs ++ ']' :: rest).head? = some d → d.isDigit = false := by
        intro m d _ hd
        cases xs with
        | nil =>
          simp [emitItems] at hd
          subst hd
          decide
        | cons y ys =>
          simp [emitItems] at hd
          subst hd
          decide
      have hv := ihV x (emitItems xs ++ ']' :: rest) hxn hsafe
      rw [parseItems.eq_def]
      simp only [hv]
      cases xs with
      | nil =>
        simp +decide [emitItems,
          skipWs_cons_of_not_ws (show isWsChar ']' = false from by decide)]
      | cons y ys =>
        obtain ⟨c0, cs0, h0, hnw0, hnb0, hnbr0⟩ := emit_head_spec y
        have hfy : 1 + jfuel y + ifuel ys ≤ n := by
          have := jfuel_pos x
          simp only [ifuel] at hfuel
          omega
        have hitems := ihI y ys rest hfy
        rw [show emitItems (y :: ys) ++ ']' :: rest =
          ',' :: ' ' :: (emit y ++ (emitItems ys ++ ']' :: rest)) from by simp [emitItems]]
        simp +decide [skipWs_cons_of_not_ws (show isWsChar ',' = false from by decide),
          skipWs_cons_space, h0, skipWs_cons_of_not_ws hnw0]
        rw [h0] at hitems
        simpa using hitems
    · intro k v fs rest hfuel
      have hvn : jfuel v ≤ n := by
        have := ffuel_pos fs
        omega
      have hsafe : ∀ m d, v = Json.num m →
          (emitFields fs ++ '\x7d' :: rest).head? = some d → d.isDigit = false := by
        intro m d _ hd
        cases fs with
        | nil =>
          simp [emitFields] at hd
          subst hd
          decide
        | cons g gs =>
          rcases g with ⟨k2, v2⟩
          simp [emitFields] at hd
          subst hd
          decide
      have hv := ihV v (emitFields fs ++ '\x7d' :: rest) hvn hsafe
      obtain ⟨c0, cs0, h0, hnw0, hnb0, hnbr0⟩ := emit_head_spec v
      rw [show emitField k v ++ (emitFields fs ++ '\x7d' :: rest) =
        '"' :: (encodeStr k.toList ++ ('"' :: ':' :: ' ' ::
          (emit v ++ (emitFields fs ++ '\x7d' :: rest)))) from by simp [emitField]]
      rw [parseFields.eq_def]
      simp +decide [parseStringBody_encodeStr,
        skipWs_cons_of_not_ws (show isWsChar ':' = false from by decide),
        skipWs_cons_space, h0, skipWs_cons_of_not_ws hnw0, hv, asString_data]
      cases fs with
      | nil =>
        rw [h0] at hv
        simp only [emitFields, List.nil_append, List.cons_append] at hv
        simp +decide [emitFields, hv,
          skipWs_cons_of_not_ws (show isWsChar '\x7d' = false from by decide)]
      | cons g gs =>
        rcases g with ⟨k2, v2⟩
        have hfg : 1 + jfuel v2 + ffuel gs ≤ n := by
          have := jfuel_pos v
          simp only [ffuel] at hfuel
          omega
        have hflds := ihF k2 v2 gs rest hfg
        rw [h0] at hv
        simp only [emitFields, emitField, List.cons_append, List.nil_append,
          List.append_assoc, String.toList] at hv
        simp +decide [emitFields, emitField, hv,
          skipWs_cons_of_not_ws (show isWsChar ',' = false from by decide),
          skipWs_cons_space,
          skipWs_cons_of_not_ws (show isWsChar '"' = false from by decide)]
        simpa [emitField, String.toList, List.append_assoc] using hflds

theorem loads_dumps (j : Json) : loads (dumps j) = some j := by
  have hfuel : jfuel j ≤ 2 * (emit j).length + 1 := by
    have := jfuel_le_two_mul_emit_length j
    omega
  have hp := (parse_emit_mutual (2 * (emit j).length + 1)).1 j [] hfuel
    (fun m d _ hd => by simp at hd)
  rw [List.append_nil] at hp
  have htl : (dumps j).data = emit j := rfl
  have hlen : (dumps j).length = (emit j).length := by
    rw [show (dumps j).length = (dumps j).data.length from rfl, htl]
  simp [loads, String.toList, htl, hlen, hp, skipWs]

/-- Claim C6: a message list round-trips through `set_messages` and
`get_messages` with order and content preserved; in particular the empty
list round-trips to the empty list. -/
theorem chat_messages_round_trip (msgs : List Json) :
    get_messages (set_messages msgs) = Json.arr msgs := by
  cases msgs with
  | nil => rfl
  | cons m ms =>
    have hne : set_messages (m :: ms) = some (dumps (Json.arr (m :: ms))) := by
      simp [set_messages]
    rw [hne]
    have hd : dumps (Json.arr (m :: ms)) ≠ "" := by
      intro h
      have h2 : (dumps (Json.arr (m :: ms))).toList = [] := by rw [h]; rfl
      rw [show (dumps (Json.arr (m :: ms))).toList = emit (Json.arr (m :: ms)) from rfl]
        at h2
      obtain ⟨c, cs, hcs, _, _, _⟩ := emit_head_spec (Json.arr (m :: ms))
      rw [hcs] at h2
      cases h2
    simp [get_messages, hd, loads_dumps]

/-- Claim C10: `get_messages` is total with a `[]` fallback: a `NULL`
column, an empty string, and a string `loads` cannot parse all yield the
empty list. -/
theorem get_messages_total_fallback :
    get_messages none = Json.arr [] ∧
    get_messages (some "") = Json.arr [] ∧
    ∀ s, loads s = none → get_messages (some s) = Json.arr [] := by
  refine ⟨rfl, rfl, ?_⟩
  intro s hs
  by_cases he : s = ""
  · simp [get_messages, he]
  · simp [get_messages, he, hs]

/-- Witness for C10: a string that is not valid JSON yields `[]`. -/
theorem get_messages_total_fallback_witness :
    get_messages (some "nope") = Json.arr [] :=
  get_messages_total_fallback.2.2 "nope" rfl
